import Mathlib

/-!
Verification of the custom-cloudformation-resources handlers.

This file gives a shallow embedding of the TypeScript sources in `src/`:

* `src/acm-certificate/index.ts` — the certificate lifecycle handler
  (`findChangedAttributes`, `getCertificateId`, the replacement-id
  construction in `updateResource`, `createCertificate`'s validation and
  request construction, `findCertificateArn`, `deleteResource`);
* `src/custom-resource.ts` — the request-lifecycle engine
  (`handleRequest`'s per-instance FIFO queue, `processRequest`'s
  continuation scheduling and status reporting, the cron-expression
  computation, `getContinuationRuleName`);
* `src/cfn-response.ts` — the status-callback sender (`send`).

JavaScript values that flow through the untyped parts of the code
(property bags, `unknown` parameters) are modelled by `JSValue`.
Remote AWS calls are modelled as emitted effect lists; the responses of
remote services are inputs to the embedded functions.  Dates are UTC
epoch milliseconds (Lambda runs with TZ=UTC, so `getMinutes` etc. are the
UTC field extractors).
-/

namespace CCR

/-- A JavaScript/JSON value as it appears in CloudFormation property bags.
`undef` is JavaScript `undefined` (also the result of reading an absent
property).  `null` is omitted from the domain: none of the embedded code
paths construct it, and the source would throw a `TypeError` on
`Object.entries(null)` before producing a comparison result. -/
inductive JSValue where
  | undef
  | boolean (b : Bool)
  | number (n : Int)
  | string (s : String)
  | array (elems : List JSValue)
  | object (fields : List (String × JSValue))

/-- JavaScript `typeof` for the values in our domain. -/
def jsTypeof : JSValue → String
  | .undef => "undefined"
  | .boolean _ => "boolean"
  | .number _ => "number"
  | .string _ => "string"
  | .array _ => "object"
  | .object _ => "object"

/-- True exactly when `typeof v === 'object'` (arrays and objects). -/
def isObjectTyped (v : JSValue) : Bool :=
  jsTypeof v == "object"

/-- Entries of an array starting at index `i`, with the stringified index
as key — the tail of what `Object.entries` yields for an array. -/
def jsEntriesFrom (i : Nat) : List JSValue → List (String × JSValue)
  | [] => []
  | v :: rest => (toString i, v) :: jsEntriesFrom (i + 1) rest

/-- JavaScript `Object.entries`: index/value pairs for arrays, the field
list for objects, and `[]` for primitives. -/
def jsEntries : JSValue → List (String × JSValue)
  | .array xs => jsEntriesFrom 0 xs
  | .object fs => fs
  | _ => []

/-- JavaScript property read `v[k]`: `undefined` when the property is
absent.  Array elements are addressed by their stringified index, the
form produced by `Object.entries`. -/
def jsIndex (v : JSValue) (k : String) : JSValue :=
  match v with
  | .array xs => ((jsEntriesFrom 0 xs).find? (fun p => p.1 == k)).elim .undef Prod.snd
  | .object fs => (fs.find? (fun p => p.1 == k)).elim .undef Prod.snd
  | _ => .undef

mutual

/-- The inner `isChanged(to, from)` of `findChangedAttributes`
(src/acm-certificate/index.ts, lines 521–543).  The dispatch is on
`typeof from`: `undefined` → changed iff `to` is defined; `'object'`
(which in JavaScript includes arrays!) → changed iff `to` is not
object-typed or some entry of `from` changed recursively; otherwise the
strict comparison `from !== to`.  The source's `Array.isArray(from)`
branch sits under `default:` and is unreachable, because
`typeof [] === 'object'`. -/
def isChanged : JSValue → JSValue → Bool
  | t, .undef => match t with | .undef => false | _ => true
  | t, .object fs => (jsTypeof t != "object") || isChangedFields t fs
  | t, .array xs => (jsTypeof t != "object") || isChangedElems t 0 xs
  | t, .boolean b => match t with | .boolean b' => b != b' | _ => true
  | t, .number n => match t with | .number n' => n != n' | _ => true
  | t, .string s => match t with | .string s' => s != s' | _ => true

/-- The reduce over `Object.entries(from)` for an object-valued `from`:
`!entries.reduce((r, [k, v]) => r && !isChanged(to[k], v), true)`. -/
def isChangedFields : JSValue → List (String × JSValue) → Bool
  | _, [] => false
  | t, (k, v) :: rest => isChanged (jsIndex t k) v || isChangedFields t rest

/-- The same reduce when `from` is an array, whose `Object.entries` keys
are the stringified indices. -/
def isChangedElems : JSValue → Nat → List JSValue → Bool
  | _, _, [] => false
  | t, i, v :: rest => isChanged (jsIndex t (toString i)) v || isChangedElems t (i + 1) rest

end

/-- `findChangedAttributes(params, oldParams)`
(src/acm-certificate/index.ts, lines 517–548):
`Object.keys(params).filter(key => isChanged(params[key], oldParams[key]))`. -/
def findChangedAttributes (params oldParams : List (String × JSValue)) : List String :=
  (params.map Prod.fst).filter fun key =>
    isChanged (jsIndex (.object params) key) (jsIndex (.object oldParams) key)

/-- The comparison actually performed by `isChanged`, as an inductive
relation: `JSDiffers to from` holds when the source reports the new value
`to` as changed relative to the old value `from`.  The relation is
asymmetric: for object-typed old values only the entries of the OLD value
are examined, so extra keys or extra trailing array elements of the new
value are invisible. -/
inductive JSDiffers : JSValue → JSValue → Prop where
  | newDefined {t : JSValue} : t ≠ .undef → JSDiffers t .undef
  | typeMismatch {t fr : JSValue} : isObjectTyped fr = true → isObjectTyped t = false →
      JSDiffers t fr
  | entryDiffers {t fr : JSValue} {k : String} {v : JSValue} :
      isObjectTyped fr = true → isObjectTyped t = true →
      (k, v) ∈ jsEntries fr → JSDiffers (jsIndex t k) v → JSDiffers t fr
  | primNotEqual {t fr : JSValue} : isObjectTyped fr = false → fr ≠ .undef → fr ≠ t →
      JSDiffers t fr

theorem isChangedFields_eq_true_iff (t : JSValue) (l : List (String × JSValue)) :
    isChangedFields t l = true ↔ ∃ k v, (k, v) ∈ l ∧ isChanged (jsIndex t k) v = true := by
  induction l with
  | nil => simp [isChangedFields]
  | cons p rest ih =>
    obtain ⟨k, v⟩ := p
    simp only [isChangedFields, Bool.or_eq_true, ih, List.mem_cons]
    constructor
    · rintro (h | ⟨k', v', hm, hc⟩)
      · exact ⟨k, v, Or.inl rfl, h⟩
      · exact ⟨k', v', Or.inr hm, hc⟩
    · rintro ⟨k', v', (heq | hm), hc⟩
      · obtain ⟨rfl, rfl⟩ := Prod.mk.injEq .. ▸ heq
        exact Or.inl hc
      · exact Or.inr ⟨k', v', hm, hc⟩

theorem isChangedElems_eq_fields (t : JSValue) (xs : List JSValue) :
    ∀ i, isChangedElems t i xs = isChangedFields t (jsEntriesFrom i xs) := by
  induction xs with
  | nil => intro i; rfl
  | cons v rest ih => intro i; simp [isChangedElems, jsEntriesFrom, isChangedFields, ih]

theorem sizeOf_snd_lt_of_mem_fields {k : String} {v : JSValue}
    {l : List (String × JSValue)} (h : (k, v) ∈ l) : sizeOf v < sizeOf l := by
  induction l with
  | nil => cases h
  | cons p rest ih =>
    rcases List.mem_cons.mp h with heq | hm
    · subst heq
      simp only [List.cons.sizeOf_spec, Prod.mk.sizeOf_spec]
      omega
    · have := ih hm
      simp only [List.cons.sizeOf_spec]
      omega

theorem mem_jsEntriesFrom {k : String} {v : JSValue} {xs : List JSValue} :
    ∀ {i}, (k, v) ∈ jsEntriesFrom i xs → v ∈ xs := by
  induction xs with
  | nil => intro i h; cases h
  | cons w rest ih =>
    intro i h
    rcases List.mem_cons.mp h with heq | hm
    · injection heq with h1 h2
      subst h2
      exact List.mem_cons_self v rest
    · exact List.mem_cons_of_mem _ (ih hm)

theorem sizeOf_lt_of_mem_elems {v : JSValue} {xs : List JSValue} (h : v ∈ xs) :
    sizeOf v < sizeOf xs := by
  induction xs with
  | nil => cases h
  | cons w rest ih =>
    rcases List.mem_cons.mp h with rfl | hm
    · simp only [List.cons.sizeOf_spec]; omega
    · have := ih hm
      simp only [List.cons.sizeOf_spec]
      omega

theorem isChanged_eq_true_iff_aux :
    ∀ n fr t, sizeOf fr ≤ n → (isChanged t fr = true ↔ JSDiffers t fr) := by
  intro n
  induction n with
  | zero =>
    intro fr t h
    exfalso
    cases fr <;> simp_all
  | succ n ih =>
    intro fr t hle
    have hundef : ∀ t' : JSValue, isChanged t' JSValue.undef = true ↔ t' ≠ JSValue.undef := by
      intro t'; cases t' <;> simp [isChanged]
    cases fr with
    | undef =>
      constructor
      · intro h
        exact JSDiffers.newDefined ((hundef t).mp h)
      · intro h
        cases h with
        | newDefined hne => exact (hundef t).mpr hne
        | typeMismatch h1 h2 => simp [isObjectTyped, jsTypeof] at h1
        | entryDiffers h1 _ _ _ => simp [isObjectTyped, jsTypeof] at h1
        | primNotEqual _ h2 _ => exact absurd rfl h2
    | boolean b =>
      have hprim : isChanged t (.boolean b) = true ↔ JSValue.boolean b ≠ t := by
        cases t <;> simp [isChanged]
      constructor
      · intro h
        exact JSDiffers.primNotEqual (by simp [isObjectTyped, jsTypeof]) (by simp) (hprim.mp h)
      · intro h
        cases h with
        | typeMismatch h1 _ => simp [isObjectTyped, jsTypeof] at h1
        | entryDiffers h1 _ _ _ => simp [isObjectTyped, jsTypeof] at h1
        | primNotEqual _ _ hne => exact hprim.mpr hne
    | number m =>
      have hprim : isChanged t (.number m) = true ↔ JSValue.number m ≠ t := by
        cases t <;> simp [isChanged]
      constructor
      · intro h
        exact JSDiffers.primNotEqual (by simp [isObjectTyped, jsTypeof]) (by simp) (hprim.mp h)
      · intro h
        cases h with
        | typeMismatch h1 _ => simp [isObjectTyped, jsTypeof] at h1
        | entryDiffers h1 _ _ _ => simp [isObjectTyped, jsTypeof] at h1
        | primNotEqual _ _ hne => exact hprim.mpr hne
    | string s =>
      have hprim : isChanged t (.string s) = true ↔ JSValue.string s ≠ t := by
        cases t <;> simp [isChanged]
      constructor
      · intro h
        exact JSDiffers.primNotEqual (by simp [isObjectTyped, jsTypeof]) (by simp) (hprim.mp h)
      · intro h
        cases h with
        | typeMismatch h1 _ => simp [isObjectTyped, jsTypeof] at h1
        | entryDiffers h1 _ _ _ => simp [isObjectTyped, jsTypeof] at h1
        | primNotEqual _ _ hne => exact hprim.mpr hne
    | object fs =>
      have hsz : sizeOf fs ≤ n := by
        simp only [JSValue.object.sizeOf_spec] at hle
        omega
      cases hobj : isObjectTyped t with
      | false =>
        have hlhs : isChanged t (.object fs) = true := by
          simp only [isObjectTyped, jsTypeof] at hobj
          cases t <;> simp_all [isChanged, jsTypeof]
        simp only [hlhs, true_iff]
        exact JSDiffers.typeMismatch (by simp [isObjectTyped, jsTypeof]) hobj
      | true =>
        have hlhs : isChanged t (.object fs) = isChangedFields t fs := by
          simp only [isObjectTyped, jsTypeof] at hobj
          cases t <;> simp_all [isChanged, jsTypeof]
        rw [hlhs, isChangedFields_eq_true_iff]
        constructor
        · rintro ⟨k, v, hm, hc⟩
          have hvsz : sizeOf v ≤ n := by
            have := sizeOf_snd_lt_of_mem_fields hm
            omega
          exact JSDiffers.entryDiffers (by simp [isObjectTyped, jsTypeof]) hobj hm
            ((ih v (jsIndex t k) hvsz).mp hc)
        · intro h
          cases h with
          | typeMismatch _ h2 => rw [hobj] at h2; cases h2
          | primNotEqual h1 _ _ => simp [isObjectTyped, jsTypeof] at h1
          | @entryDiffers _ _ k v h1 h2 hm hd =>
            simp only [jsEntries] at hm
            have hvsz : sizeOf v ≤ n := by
              have := sizeOf_snd_lt_of_mem_fields hm
              omega
            exact ⟨k, v, hm, (ih v (jsIndex t k) hvsz).mpr hd⟩
    | array xs =>
      have hsz : sizeOf xs ≤ n := by
        simp only [JSValue.array.sizeOf_spec] at hle
        omega
      cases hobj : isObjectTyped t with
      | false =>
        have hlhs : isChanged t (.array xs) = true := by
          simp only [isObjectTyped, jsTypeof] at hobj
          cases t <;> simp_all [isChanged, jsTypeof]
        simp only [hlhs, true_iff]
        exact JSDiffers.typeMismatch (by simp [isObjectTyped, jsTypeof]) hobj
      | true =>
        have hlhs : isChanged t (.array xs) = isChangedFields t (jsEntriesFrom 0 xs) := by
          have := isChangedElems_eq_fields t xs 0
          simp only [isObjectTyped, jsTypeof] at hobj
          cases t <;> simp_all [isChanged, jsTypeof]
        rw [hlhs, isChangedFields_eq_true_iff]
        constructor
        · rintro ⟨k, v, hm, hc⟩
          have hvsz : sizeOf v ≤ n := by
            have := sizeOf_lt_of_mem_elems (mem_jsEntriesFrom hm)
            omega
          exact JSDiffers.entryDiffers (by simp [isObjectTyped, jsTypeof]) hobj hm
            ((ih v (jsIndex t k) hvsz).mp hc)
        · intro h
          cases h with
          | typeMismatch _ h2 => rw [hobj] at h2; cases h2
          | primNotEqual h1 _ _ => simp [isObjectTyped, jsTypeof] at h1
          | @entryDiffers _ _ k v h1 h2 hm hd =>
            simp only [jsEntries] at hm
            have hvsz : sizeOf v ≤ n := by
              have := sizeOf_lt_of_mem_elems (mem_jsEntriesFrom hm)
              omega
            exact ⟨k, v, hm, (ih v (jsIndex t k) hvsz).mpr hd⟩

theorem isChanged_eq_true_iff (t fr : JSValue) :
    isChanged t fr = true ↔ JSDiffers t fr :=
  isChanged_eq_true_iff_aux (sizeOf fr) fr t le_rfl

/-! ### Certificate handler: ids, lookup, creation, deletion
Embedding of `src/acm-certificate/index.ts`. -/

/-- JavaScript `s.substring(s.lastIndexOf('/') + 1)`: the part of `s`
after the last slash, or all of `s` when it has no slash
(`lastIndexOf` returns `-1`, so `substring(0)` is the whole string). -/
def afterLastSlash (s : String) : String :=
  String.mk ((s.data.reverse.takeWhile (fun c => c ≠ '/')).reverse)

/-- TypeScript `s.endsWith(pat)`. -/
def strEndsWith (s pat : String) : Bool :=
  pat.data.isSuffixOf s.data

/-- `getCertificateId(certificateArn)` (src/acm-certificate/index.ts,
lines 97–100): the ARN segment after the last `/`. -/
def getCertificateId (certificateArn : String) : String :=
  afterLastSlash certificateArn

/-- The new-physical-resource-id construction of the replacement branch of
`updateResource` (src/acm-certificate/index.ts, lines 276–292), verbatim:
when the old id ends with `/` + the found certificate's id, the source
computes `physicalResourceId.substring(lastSlashIndex + 1)` — the part
AFTER the last slash — and otherwise uses the whole old id; the result is
that value, `/`, and the new certificate id. -/
def replacementPhysicalResourceId (physicalResourceId certificateArn newCertificateId : String) :
    String :=
  let idBase :=
    if strEndsWith physicalResourceId ("/" ++ getCertificateId certificateArn) then
      afterLastSlash physicalResourceId
    else
      physicalResourceId
  idBase ++ "/" ++ newCertificateId

/-- One entry of the `DomainValidationOptions` property.  The source
distinguishes the email-style shape (`'ValidationDomain' in option`) from
the DNS-style shape (`'HostedZoneId' in option`) by field presence, so
both fields are modelled as optional. -/
structure DomainValidationOption where
  DomainName : String
  ValidationDomain : Option String
  HostedZoneId : Option String
deriving DecidableEq

/-- `isEmailDomainValidationOption` (src/acm-certificate/index.ts,
lines 85–89): `'ValidationDomain' in option`. -/
def isEmailDomainValidationOption (o : DomainValidationOption) : Bool :=
  o.ValidationDomain.isSome

/-- `isDNSDomainValidationOption` (src/acm-certificate/index.ts,
lines 91–95): `'HostedZoneId' in option`. -/
def isDNSDomainValidationOption (o : DomainValidationOption) : Bool :=
  o.HostedZoneId.isSome

/-- A certificate tag (`Key` required, `Value` optional). -/
structure Tag where
  Key : String
  Value : Option String
deriving DecidableEq

/-- The certificate resource's property set, after the engine stripped
`ServiceToken` (schema at src/acm-certificate/index.ts, lines 41–78).
`DomainValidationOptions` and `Tags` default to `[]` as in the source's
destructuring defaults. -/
structure CertificateParams where
  DomainName : String
  CertificateTransparencyLoggingPreference : Option String
  DomainValidationOptions : List DomainValidationOption
  Tags : List Tag
deriving DecidableEq

/-- The `ACM.RequestCertificateRequest` assembled by `createCertificate`
(src/acm-certificate/index.ts, lines 446–456): the base request (params
minus the transparency preference and validation options), the sanitized
idempotency token, the email-style validation options (or absent when
there are none), and the transparency preference under `Options`. -/
structure RequestCertificateRequest where
  DomainName : String
  Tags : List Tag
  IdempotencyToken : String
  DomainValidationOptions : Option (List DomainValidationOption)
  CertificateTransparencyLoggingPreference : Option String
deriving DecidableEq

/-- JavaScript word characters, the complement of the `/[^\w]/g` class. -/
def isWordChar (c : Char) : Bool :=
  c.isAlpha || c.isDigit || c == '_'

/-- `rawIdempotencyToken.replace(/[^\w]/g, '').slice(0, 32)`. -/
def sanitizeIdempotencyToken (raw : String) : String :=
  String.mk ((raw.data.filter isWordChar).take 32)

/-- The validation guard of `createCertificate` (src/acm-certificate/index.ts,
lines 437–443): `dns.length > 1 || (dns.length === 1 && dns[0].DomainName
!== params.DomainName)`. -/
def dnsOptionsInvalid (domainName : String) (dnsOpts : List DomainValidationOption) : Bool :=
  match dnsOpts with
  | [] => false
  | [d] => d.DomainName != domainName
  | _ :: _ :: _ => true

/-- The pure head of `createCertificate` (src/acm-certificate/index.ts,
lines 422–456): split the validation options by method, reject invalid
DNS options, and otherwise build the issuance request that is sent to
`acm.requestCertificate`.  The remote call itself, the validation-record
polling, the Route53 upsert and the `waitFor('certificateValidated')`
that follow are external effects outside this pure prefix. -/
def buildCertificateRequest (params : CertificateParams) (rawIdempotencyToken : String) :
    Except String RequestCertificateRequest :=
  let emailDomainValidationOptions :=
    params.DomainValidationOptions.filter isEmailDomainValidationOption
  let dnsDomainValidationOptions :=
    params.DomainValidationOptions.filter isDNSDomainValidationOption
  if dnsOptionsInvalid params.DomainName dnsDomainValidationOptions then
    .error "Invalid DNS domain validation options"
  else
    .ok
      { DomainName := params.DomainName
        Tags := params.Tags
        IdempotencyToken := sanitizeIdempotencyToken rawIdempotencyToken
        DomainValidationOptions :=
          if emailDomainValidationOptions.length == 0 then none
          else some emailDomainValidationOptions
        CertificateTransparencyLoggingPreference :=
          params.CertificateTransparencyLoggingPreference }

/-- One record of the remote `acm.listCertificates` listing. -/
structure CertificateSummary where
  CertificateArn : String
  DomainName : String
deriving DecidableEq

/-- `findCertificateArn` (src/acm-certificate/index.ts, lines 297–357),
with the paged remote listing supplied as the input `certificates`:
first the certificate whose id is the suffix of the physical resource id,
then — with a warning — any certificate with the same domain name. -/
def findCertificateArn (certificates : List CertificateSummary)
    (physicalResourceId domainName : String) : Option String :=
  let byId := certificates.find? fun c =>
    strEndsWith physicalResourceId ("/" ++ getCertificateId c.CertificateArn)
  let certificate :=
    match byId with
    | some c => some c
    | none => certificates.find? fun c => c.DomainName == domainName
  certificate.map (fun c => c.CertificateArn)

/-- The remote calls the certificate handler can issue against ACM and
Route53.  `changeResourceRecordSets` covers every Route53 record
mutation (both upserts and deletions go through this one API). -/
inductive ACMEffect where
  | deleteCertificate (certificateArn : String)
  | changeResourceRecordSets (hostedZoneId : String)
  | updateCertificateOptions (certificateArn : String)
  | addTagsToCertificate (certificateArn : String)
  | removeTagsFromCertificate (certificateArn : String)
deriving DecidableEq

/-- True exactly for the Route53 effects. -/
def ACMEffect.isRoute53 : ACMEffect → Bool
  | .changeResourceRecordSets _ => true
  | _ => false

/-- The response shape of the certificate handler's operations. -/
structure CertAttributes where
  Arn : String
  CertificateId : String
deriving DecidableEq

/-- The `Response` value returned by the certificate handler. -/
structure CertResponse where
  physicalResourceId : String
  attributes : Option CertAttributes
deriving DecidableEq

/-- `deleteResource` (src/acm-certificate/index.ts, lines 125–157) with
the remote listing supplied as input: look the certificate up, throw
when it cannot be found, otherwise delete the certificate itself — and
deliberately nothing else, in particular no Route53 record — and return
the unchanged physical resource id. -/
def deleteResource (certificates : List CertificateSummary)
    (physicalResourceId : String) (params : CertificateParams) :
    Except String (List ACMEffect × CertResponse) :=
  match findCertificateArn certificates physicalResourceId params.DomainName with
  | none =>
      .error ("Cannot find certificate " ++ physicalResourceId ++
        " (domain " ++ params.DomainName ++ ")")
  | some certificateArn =>
      .ok ([ACMEffect.deleteCertificate certificateArn],
        { physicalResourceId := physicalResourceId
          attributes := some
            { Arn := certificateArn
              CertificateId := getCertificateId certificateArn } })

/-! ### Request-lifecycle engine
Embedding of `src/custom-resource.ts`. -/

/-- The terminal status reported to CloudFormation (`cfn-response.ts`). -/
inductive ResponseStatus where
  | success
  | failed
deriving DecidableEq

/-- The `RequestType` of an inbound event. -/
inductive RequestKind where
  | create
  | update
  | delete
deriving DecidableEq

/-- The inbound `CustomResourceRequest`, parametric in the continuation
attribute type.  `ContinuationAttributes = some _` marks a re-delivered
(continued) event, the `isContinuedCustomResourceRequest` test in the
source.  `PhysicalResourceId = ""` models an absent/empty id (both are
falsy for the `||` default in `processRequest`). -/
structure CustomResourceRequest (CA : Type) where
  ServiceToken : String
  RequestType : RequestKind
  ResponseURL : String
  StackId : String
  RequestId : String
  LogicalResourceId : String
  PhysicalResourceId : String
  ResourceType : String
  ContinuationAttributes : Option CA

/-- The default physical resource id of `processRequest`
(src/custom-resource.ts, lines 136–139):
`request.PhysicalResourceId || [StackId, LogicalResourceId, RequestId].join('/')`. -/
def defaultPhysicalResourceId {CA : Type} (request : CustomResourceRequest CA) : String :=
  if request.PhysicalResourceId = "" then
    request.StackId ++ "/" ++ request.LogicalResourceId ++ "/" ++ request.RequestId
  else request.PhysicalResourceId

/-- The outcome of one handler invocation (`createResource`,
`updateResource` or `deleteResource`): a definite `Response`, a
`ContinuationRequired`, or a thrown error with its message. -/
inductive HandlerOutcome (RA CA : Type) where
  | ok (physicalResourceId : Option String) (attributes : Option RA)
  | continuation (continuationAfter : Nat) (continuationAttributes : CA)
  | throws (message : String)

/-- True on the `ContinuationRequired` shape
(`isContinuationRequired`, src/custom-resource.ts, lines 29–33). -/
def HandlerOutcome.isContinuation {RA CA : Type} : HandlerOutcome RA CA → Bool
  | .continuation _ _ => true
  | _ => false

/-- State field of a CloudWatch Events rule. -/
inductive RuleState where
  | disabled
  | enabled
deriving DecidableEq

/-- The remote calls `processRequest` issues, in order: CloudWatch Events
rule/target management and the status callback delivered through
`sendResponse`. -/
inductive EngineEffect (RA CA : Type) where
  | putRule (name scheduleExpression : String) (state : RuleState)
  | putTargets (rule targetArn : String) (continuationAttributes : CA)
  | send (status : ResponseStatus) (reason : Option String)
      (physicalResourceId : String) (attributes : Option RA)
  | removeTargets (rule : String)
  | deleteRule (name : String)

/-- True exactly on the status-callback effect. -/
def EngineEffect.isSend {RA CA : Type} : EngineEffect RA CA → Bool
  | .send _ _ _ _ => true
  | _ => false

/-- The stack name extracted from the `StackId` ARN
(src/custom-resource.ts, line 305):
`request.StackId.split(/:/)[5].split(/\//)` destructured at index 1.
Out-of-range reads yield `""` (the source would throw there). -/
def jsStackName (stackId : String) : String :=
  (((stackId.splitOn ":").getD 5 "").splitOn "/").getD 1 ""

/-- `getContinuationRuleName` (src/custom-resource.ts, lines 298–310).
`crc32hex` is the external `crc` npm package's `crc32(x).toString(16)`,
supplied as an opaque function. -/
def getContinuationRuleName {CA : Type} (crc32hex : String → String)
    (request : CustomResourceRequest CA) : String :=
  let stackName := jsStackName request.StackId
  let safeRequestId := crc32hex request.RequestId
  let continuationRuleName := "Continuation-" ++ stackName ++ "-" ++ request.LogicalResourceId
  (continuationRuleName.take 55) ++ "-" ++ safeRequestId

/-- UTC minutes-of-hour of an epoch-milliseconds instant
(`Date.prototype.getMinutes` under TZ=UTC). -/
def jsGetMinutes (tMs : Nat) : Nat :=
  tMs / 60000 % 60

/-- UTC hours-of-day of an epoch-milliseconds instant. -/
def jsGetHours (tMs : Nat) : Nat :=
  tMs / 3600000 % 24

/-- Civil date (year, month 1–12, day 1–31) of a day count since
1970-01-01, for non-negative day counts. -/
def civilFromDays (z : Nat) : Nat × Nat × Nat :=
  let z := z + 719468
  let era := z / 146097
  let doe := z % 146097
  let yoe := (doe - doe / 1460 + doe / 36524 - doe / 146096) / 365
  let y := yoe + era * 400
  let doy := doe - (365 * yoe + yoe / 4 - yoe / 100)
  let mp := (5 * doy + 2) / 153
  let d := doy - (153 * mp + 2) / 5 + 1
  let m := if mp < 10 then mp + 3 else mp - 9
  (if m ≤ 2 then y + 1 else y, m, d)

/-- The minute field of the continuation cron expression
(src/custom-resource.ts, lines 237–239):
`Math.max(now.getMinutes() + 1, when.getMinutes())` where
`when = now + continuationAfter seconds`.  The `+ 1` implements the
source's 'round up to the next full minute' comment. -/
def cronMinuteField (nowMs continuationAfter : Nat) : Nat :=
  max (jsGetMinutes nowMs + 1) (jsGetMinutes (nowMs + continuationAfter * 1000))

/-- A CloudWatch Events cron minute field must lie in 0–59. -/
def isValidCronMinute (m : Nat) : Bool :=
  m ≤ 59

/-- The cron expression body for the ENABLED continuation rule
(src/custom-resource.ts, lines 234–242): minute, hour, day-of-month,
month (`getMonth() + 1`), `?`, year — all but the minute taken from
`when = now + continuationAfter seconds`. -/
def cronExpression (nowMs continuationAfter : Nat) : String :=
  let whenMs := nowMs + continuationAfter * 1000
  let ymd := civilFromDays (whenMs / 86400000)
  toString (cronMinuteField nowMs continuationAfter) ++ " " ++
    toString (jsGetHours whenMs) ++ " " ++
    toString ymd.2.2 ++ " " ++
    toString ymd.2.1 ++ " ? " ++
    toString ymd.1

/-- The effect/status semantics of `processRequest`
(src/custom-resource.ts, lines 127–296) given the handler's outcome.
The `try/catch` around the `switch` maps a handler throw to
`status = FAILED` with the error message as reason; a normal return sets
`status = SUCCESS`.  A `ContinuationRequired` outcome schedules the
re-invocation (disabled rule with far-past sentinel, then target, then
enabled rule with the future cron expression) and sends no callback;
otherwise the callback is sent, followed — for continued requests — by
best-effort rule cleanup. -/
def processOutcome {RA CA : Type} (crc32hex : String → String) (nowMs : Nat)
    (request : CustomResourceRequest CA) (outcome : HandlerOutcome RA CA) :
    List (EngineEffect RA CA) × ResponseStatus :=
  let physicalResourceId := defaultPhysicalResourceId request
  match outcome with
  | .continuation continuationAfter continuationAttributes =>
      let continuationRuleName := getContinuationRuleName crc32hex request
      ([ .putRule continuationRuleName "cron(30 7 19 6 ? 2018)" .disabled,
         .putTargets continuationRuleName request.ServiceToken continuationAttributes,
         .putRule continuationRuleName
           ("cron(" ++ cronExpression nowMs continuationAfter ++ ")") .enabled ],
       ResponseStatus.success)
  | .ok responsePid attributes =>
      let responsePhysicalResourceId :=
        match responsePid with
        | some p => if p = "" then physicalResourceId else p
        | none => physicalResourceId
      let cleanup : List (EngineEffect RA CA) :=
        match request.ContinuationAttributes with
        | some _ =>
            let continuationRuleName := getContinuationRuleName crc32hex request
            [.removeTargets continuationRuleName, .deleteRule continuationRuleName]
        | none => []
      (EngineEffect.send .success none responsePhysicalResourceId attributes :: cleanup,
       ResponseStatus.success)
  | .throws message =>
      let cleanup : List (EngineEffect RA CA) :=
        match request.ContinuationAttributes with
        | some _ =>
            let continuationRuleName := getContinuationRuleName crc32hex request
            [.removeTargets continuationRuleName, .deleteRule continuationRuleName]
        | none => []
      (EngineEffect.send .failed (some message) physicalResourceId none :: cleanup,
       ResponseStatus.failed)

/-- `processRequest` proper: the handler (abstracting the
`createResource`/`updateResource`/`deleteResource` dispatch on
`RequestType`) is invoked with the defaulted physical resource id and
the request's continuation attributes, and its outcome drives
`processOutcome`. -/
def processRequest {RA CA : Type} (crc32hex : String → String) (nowMs : Nat)
    (request : CustomResourceRequest CA)
    (handler : String → Option CA → HandlerOutcome RA CA) :
    List (EngineEffect RA CA) × ResponseStatus :=
  processOutcome crc32hex nowMs request
    (handler (defaultPhysicalResourceId request) request.ContinuationAttributes)

/-! ### The per-instance request queue
Embedding of `handleRequest` (src/custom-resource.ts, lines 91–125).
The queue of pending operation closures is modelled as a transition
system: `submit` appends a request and starts it when it is the only
entry; `settle` ends the head operation (resolving or rejecting exactly
its own promise) and starts the next queued one, regardless of whether
the head succeeded or failed.  `started` and `settled` record, in order,
which operations have begun executing and which have finished (and how),
so ordering claims are observable on the state. -/

/-- Queue state: pending request ids in FIFO order (the head is the one
in flight, mirroring that the source removes the closure only in the
`finally`), the ids that started executing, and the settled ids with
their success flag. -/
structure RequestQueueState where
  queue : List Nat
  started : List Nat
  settled : List (Nat × Bool)
deriving DecidableEq

/-- Events against one `CustomResource` instance: a `handleRequest` call,
or the settlement (fulfilment `true` / rejection `false`) of the
in-flight operation. -/
inductive QueueEvent where
  | submit (id : Nat)
  | settle (ok : Bool)
deriving DecidableEq

/-- One transition.  `submit` models lines 120–123 (`push`, and start
immediately iff the queue was empty); `settle` models lines 103–118
(resolve/reject this request's own promise, `shift`, and start the next
queued closure if any).  Settling is impossible when nothing is in
flight. -/
def queueStep (s : RequestQueueState) : QueueEvent → Option RequestQueueState
  | .submit id =>
      some { queue := s.queue ++ [id]
             started := if s.queue.isEmpty then s.started ++ [id] else s.started
             settled := s.settled }
  | .settle ok =>
      match s.queue with
      | [] => none
      | h :: t =>
          some { queue := t
                 started := s.started ++ t.head?.toList
                 settled := s.settled ++ [(h, ok)] }

/-- Run a list of events from a state. -/
def runQueue (s : RequestQueueState) : List QueueEvent → Option RequestQueueState
  | [] => some s
  | e :: es =>
      match queueStep s e with
      | some s' => runQueue s' es
      | none => none

/-- The ids submitted by a list of events, in submission order. -/
def submittedIds (events : List QueueEvent) : List Nat :=
  events.filterMap fun e =>
    match e with
    | .submit id => some id
    | .settle _ => none

/-- The state of a freshly constructed `CustomResource`. -/
def initialQueueState : RequestQueueState :=
  { queue := [], started := [], settled := [] }

/-- The ids of the settled operations, in settlement order. -/
def settledIds (s : RequestQueueState) : List Nat :=
  s.settled.map Prod.fst

/-- The queue invariant: the started operations are exactly the settled
ones followed by the in-flight head of the queue. -/
def goodState (s : RequestQueueState) : Prop :=
  s.started = settledIds s ++ s.queue.head?.toList

/-! ### Status callback sender
Embedding of `send` in `src/cfn-response.ts`. -/

/-- One hexadecimal digit. -/
def hexDigit (n : Nat) : Char :=
  if n < 10 then Char.ofNat ('0'.toNat + n)
  else Char.ofNat ('a'.toNat + (n - 10))

/-- Four-digit lowercase hex, for `\uXXXX` escapes. -/
def hex4 (n : Nat) : String :=
  String.mk [hexDigit (n / 4096 % 16), hexDigit (n / 256 % 16),
    hexDigit (n / 16 % 16), hexDigit (n % 16)]

/-- The escape `JSON.stringify` applies to one character inside a string
literal. -/
def jsonEscapeChar (c : Char) : String :=
  if c = '"' then "\\\""
  else if c = '\\' then "\\\\"
  else if c = '\n' then "\\n"
  else if c = '\r' then "\\r"
  else if c = '\t' then "\\t"
  else if c.toNat = 8 then "\\b"
  else if c.toNat = 12 then "\\f"
  else if c.toNat < 32 then "\\u" ++ hex4 c.toNat
  else String.singleton c

/-- Concatenation of a list of strings. -/
def concatAll : List String → String
  | [] => ""
  | x :: rest => x ++ concatAll rest

/-- Comma-separated concatenation, as `JSON.stringify` places between
array elements and object fields. -/
def joinComma : List String → String
  | [] => ""
  | [x] => x
  | x :: rest => x ++ "," ++ joinComma rest

/-- The body of a `JSON.stringify` string literal. -/
def jsonEscape (s : String) : String :=
  concatAll (s.data.map jsonEscapeChar)

mutual

/-- `JSON.stringify` over our value domain.  A top-level or array-element
`undefined` renders as `null` (the array case is what `JSON.stringify`
does; the top level never receives `undefined` in `send`); object fields
with `undefined` values are omitted, which is how the optional `Reason`
disappears from the response body. -/
def jsonStringify : JSValue → String
  | .undef => "null"
  | .boolean b => cond b "true" "false"
  | .number n => toString n
  | .string s => "\"" ++ jsonEscape s ++ "\""
  | .array xs => "[" ++ joinComma (jsonStringifyElems xs) ++ "]"
  | .object fs => "\x7b" ++ joinComma (jsonStringifyFields fs) ++ "\x7d"

/-- Rendered array elements. -/
def jsonStringifyElems : List JSValue → List String
  | [] => []
  | v :: rest => jsonStringify v :: jsonStringifyElems rest

/-- Rendered object fields, skipping `undefined`-valued ones. -/
def jsonStringifyFields : List (String × JSValue) → List String
  | [] => []
  | (k, v) :: rest =>
      match v with
      | .undef => jsonStringifyFields rest
      | _ => ("\"" ++ jsonEscape k ++ "\":" ++ jsonStringify v) :: jsonStringifyFields rest

end

/-- Render `ResponseStatus` as in the response document. -/
def statusString : ResponseStatus → String
  | .success => "SUCCESS"
  | .failed => "FAILED"

/-- The `Reason` value (src/cfn-response.ts, lines 50–52):
`responseReason || (responseStatus === 'FAILED' ? 'Unknown error' :
undefined)`, with the empty string falsy. -/
def responseReasonValue (responseReason : Option String) (responseStatus : ResponseStatus) :
    Option String :=
  let fallback : Option String :=
    match responseStatus with
    | .failed => some "Unknown error"
    | .success => none
  match responseReason with
  | some r => if r = "" then fallback else some r
  | none => fallback

/-- The serialized response body (src/cfn-response.ts, lines 48–59):
`JSON.stringify` of the fixed-shape status document.  The
`PhysicalResourceId` falls back to the request's own (`||`, empty string
falsy). -/
def responseBody {CA : Type} (request : CustomResourceRequest CA)
    (responseStatus : ResponseStatus) (responseReason : Option String)
    (physicalResourceId : Option String) (responseData : JSValue) (noEcho : Bool) : String :=
  let pid :=
    match physicalResourceId with
    | some p => if p = "" then request.PhysicalResourceId else p
    | none => request.PhysicalResourceId
  jsonStringify (.object
    [ ("Status", .string (statusString responseStatus)),
      ("Reason",
        match responseReasonValue responseReason responseStatus with
        | some r => .string r
        | none => .undef),
      ("PhysicalResourceId", .string pid),
      ("StackId", .string request.StackId),
      ("RequestId", .string request.RequestId),
      ("LogicalResourceId", .string request.LogicalResourceId),
      ("NoEcho", .boolean noEcho),
      ("Data", responseData) ])

/-- The observable actions of `send`: the size warning and the HTTP PUT. -/
inductive SendEffect where
  | warn (message : String)
  | httpPut (url body : String)
deriving DecidableEq

/-- `send` (src/cfn-response.ts, lines 40–104): serialize the body, warn
(including the full body in the message) when it reaches the 4096-byte
limit — but proceed regardless — and PUT the body to the callback URL.
The transport outcome (non-2xx status, socket error) is external. -/
def send {CA : Type} (request : CustomResourceRequest CA)
    (responseStatus : ResponseStatus) (responseReason : Option String)
    (physicalResourceId : Option String) (responseData : JSValue) (noEcho : Bool) :
    List SendEffect :=
  let body := responseBody request responseStatus responseReason physicalResourceId
    responseData noEcho
  (if 4096 ≤ body.length then
    [SendEffect.warn ("Response body length of " ++ toString body.length ++
      " bytes exceeds CloudFormation limit of 4KiB: " ++ body)]
  else []) ++ [SendEffect.httpPut request.ResponseURL body]

/-! ### Claim theorems -/

/-- C1: the claim says the replacement branch of `updateResource` returns
`<prefix>/<newCertId>` for an old id `<prefix>/<oldCertId>`.  The code
instead assigns the substring AFTER the last slash — the old certificate
id — to `physicalResourceIdPrefix`, so for the old id
`stack/logical/abc123` (whose suffix matches the found certificate
`.../certificate/abc123`) and new certificate id `def456` it returns
`abc123/def456`, not `stack/logical/def456`.  This contradicts the
source's own variable name and comment, which call for the prefix. -/
theorem updateResource_replacement_id_drops_stack_part :
    replacementPhysicalResourceId "stack/logical/abc123"
        "arn:aws:acm:us-east-1:123456789012:certificate/abc123" "def456" = "abc123/def456" ∧
      replacementPhysicalResourceId "stack/logical/abc123"
        "arn:aws:acm:us-east-1:123456789012:certificate/abc123" "def456" ≠
        "stack/logical/def456" := by
  constructor
  · rfl
  · decide

/-- C3: the claim says the computed cron trigger always denotes a
not-in-the-past time, the minute field being at least now's minute plus
one when `now + delay` stays in the same minute.  When the current minute
is 59 (here `now` = 1970-01-01T00:59:00Z, delay 1s) the code computes
`Math.max(59 + 1, 59) = 60`, which is outside the valid cron minute
range 0–59, so the ENABLED rule's expression denotes no time at all and
scheduling fails — contradicting the source's own comment that the
rounding exists so that scheduling happens. -/
theorem continuation_cron_minute_can_overflow :
    cronMinuteField 3540000 1 = 60 ∧
      isValidCronMinute (cronMinuteField 3540000 1) = false := by
  constructor
  · rfl
  · rfl

/-- C2 (amended): `findChangedAttributes` returns exactly the top-level
property names of the NEW set whose new value differs from the old value
under the asymmetric comparison `JSDiffers` actually implemented by
`isChanged` — not the symmetric deep comparison of the claim.  Top-level
properties absent from the new set, nested keys present only in the new
value, and extra trailing array elements of the new value are never
reported. -/
theorem findChangedAttributes_mem_iff (params oldParams : List (String × JSValue)) (k : String) :
    k ∈ findChangedAttributes params oldParams ↔
      k ∈ params.map Prod.fst ∧
        JSDiffers (jsIndex (.object params) k) (jsIndex (.object oldParams) k) := by
  unfold findChangedAttributes
  rw [List.mem_filter, isChanged_eq_true_iff]

/-- C2 counterexample: with new params `{A: [1, 2]}` and old params
`{A: [1], B: 3}` the source reports NO changed attributes.  The claimed
deep structural comparison would have to report `B` (present in one set,
absent in the other) and `A` (arrays of different lengths). -/
theorem findChangedAttributes_not_symmetric_deep :
    findChangedAttributes [("A", .array [.number 1, .number 2])]
        [("A", .array [.number 1]), ("B", .number 3)] = [] ∧
      "B" ∈ ([("A", JSValue.array [.number 1]), ("B", JSValue.number 3)].map Prod.fst) ∧
      "B" ∉ ([("A", JSValue.array [.number 1, .number 2])].map Prod.fst) ∧
      (jsEntries (jsIndex (.object [("A", JSValue.array [.number 1, .number 2])]) "A")).length ≠
        (jsEntries (jsIndex
          (.object [("A", JSValue.array [.number 1]), ("B", JSValue.number 3)]) "A")).length := by
  refine ⟨by decide, by decide, by decide, by decide⟩

/-- C10: `processRequest` hands the handler the request's
`PhysicalResourceId` when it is non-empty, and otherwise the default id
`StackId/LogicalResourceId/RequestId` (the `||` default of
src/custom-resource.ts, lines 136–139). -/
theorem processRequest_defaults_physical_resource_id {RA CA : Type}
    (crc32hex : String → String) (nowMs : Nat) (request : CustomResourceRequest CA)
    (handler : String → Option CA → HandlerOutcome RA CA) :
    processRequest crc32hex nowMs request handler =
        processOutcome crc32hex nowMs request
          (handler (defaultPhysicalResourceId request) request.ContinuationAttributes) ∧
      (request.PhysicalResourceId = "" →
        defaultPhysicalResourceId request =
          request.StackId ++ "/" ++ request.LogicalResourceId ++ "/" ++ request.RequestId) ∧
      (request.PhysicalResourceId ≠ "" →
        defaultPhysicalResourceId request = request.PhysicalResourceId) := by
  refine ⟨rfl, ?_, ?_⟩ <;> intro h <;> simp [defaultPhysicalResourceId, h]

/-- A request with an empty `PhysicalResourceId`, used to instantiate the
C10 theorem. -/
def sampleCreateRequest : CustomResourceRequest Unit :=
  { ServiceToken := "arn:aws:lambda:us-west-2:123456789012:function:cr"
    RequestType := .create
    ResponseURL := "https://callback.example/u"
    StackId := "arn:aws:cloudformation:us-west-2:123456789012:stack/mystack/guid"
    RequestId := "req-1"
    LogicalResourceId := "MyResource"
    PhysicalResourceId := ""
    ResourceType := "Custom::Test"
    ContinuationAttributes := none }

theorem processRequest_defaults_physical_resource_id_witness :
    sampleCreateRequest.PhysicalResourceId = "" ∧
      defaultPhysicalResourceId sampleCreateRequest =
        "arn:aws:cloudformation:us-west-2:123456789012:stack/mystack/guid" ++ "/" ++
          "MyResource" ++ "/" ++ "req-1" :=
  ⟨rfl,
    (@processRequest_defaults_physical_resource_id Unit Unit (fun _ => "0") 0
      sampleCreateRequest (fun _ _ => HandlerOutcome.throws "e")).2.1 rfl⟩

/-- C4: a `ContinuationRequired` outcome makes `processRequest` issue
exactly one rule creation in DISABLED state with the far-past sentinel
expression `cron(30 7 19 6 ? 2018)`, then exactly one target attachment,
then exactly one rule update to ENABLED with the future trigger
expression — in that order and nothing else — and no status callback;
across all outcomes, a callback is sent exactly on the definite-outcome
branch (once there, never on the continuation branch). -/
theorem processRequest_continuation_schedule_order {RA CA : Type}
    (crc32hex : String → String) (nowMs : Nat) (request : CustomResourceRequest CA)
    (continuationAfter : Nat) (ca : CA) :
    (processRequest crc32hex nowMs request
        (fun _ _ => @HandlerOutcome.continuation RA CA continuationAfter ca)).1 =
      [ EngineEffect.putRule (getContinuationRuleName crc32hex request)
          "cron(30 7 19 6 ? 2018)" RuleState.disabled,
        EngineEffect.putTargets (getContinuationRuleName crc32hex request)
          request.ServiceToken ca,
        EngineEffect.putRule (getContinuationRuleName crc32hex request)
          ("cron(" ++ cronExpression nowMs continuationAfter ++ ")") RuleState.enabled ] ∧
      ∀ outcome : HandlerOutcome RA CA,
        ((processOutcome crc32hex nowMs request outcome).1.filter EngineEffect.isSend).length =
          if outcome.isContinuation then 0 else 1 := by
  refine ⟨rfl, ?_⟩
  intro outcome
  cases outcome with
  | ok pid attrs =>
      cases h : request.ContinuationAttributes <;>
        simp [processOutcome, h, EngineEffect.isSend, HandlerOutcome.isContinuation]
  | continuation a c =>
      simp [processOutcome, EngineEffect.isSend, HandlerOutcome.isContinuation]
  | throws m =>
      cases h : request.ContinuationAttributes <;>
        simp [processOutcome, h, EngineEffect.isSend, HandlerOutcome.isContinuation]

/-- C6: a handler throw with message `message` is caught by
`processRequest`, which sends a FAILED status callback carrying that
message as reason (followed only by the best-effort rule cleanup when
the request was a continuation) and returns FAILED instead of
propagating the exception. -/
theorem processRequest_catches_handler_errors {RA CA : Type}
    (crc32hex : String → String) (nowMs : Nat) (request : CustomResourceRequest CA)
    (message : String) :
    processRequest crc32hex nowMs request
        (fun _ _ => @HandlerOutcome.throws RA CA message) =
      (EngineEffect.send ResponseStatus.failed (some message)
          (defaultPhysicalResourceId request) none ::
        (match request.ContinuationAttributes with
         | some _ =>
            [EngineEffect.removeTargets (getContinuationRuleName crc32hex request),
             EngineEffect.deleteRule (getContinuationRuleName crc32hex request)]
         | none => []),
       ResponseStatus.failed) := rfl

/-- The validation guard of `createCertificate` in the claim's phrasing. -/
theorem dnsOptionsInvalid_eq_true_iff (dom : String) (l : List DomainValidationOption) :
    dnsOptionsInvalid dom l = true ↔
      1 < l.length ∨ ∃ d, l = [d] ∧ d.DomainName ≠ dom := by
  match l with
  | [] => simp [dnsOptionsInvalid]
  | [d] => simp [dnsOptionsInvalid]
  | a :: b :: rest => simp [dnsOptionsInvalid]

/-- C7: `createCertificate` throws its validation error exactly when
there is more than one DNS-style validation option or exactly one whose
`DomainName` differs from the resource's, and otherwise the issuance
request carries only the email-style options (DNS-style ones excluded;
absent entirely when there are none).  The hypothesis is the property
schema's `oneOf`: each option is email-style or DNS-style, not both. -/
theorem createCertificate_validation (params : CertificateParams) (rawIdempotencyToken : String)
    (hschema : ∀ o ∈ params.DomainValidationOptions,
      o.ValidationDomain.isSome = !o.HostedZoneId.isSome) :
    ((∃ msg, buildCertificateRequest params rawIdempotencyToken = Except.error msg) ↔
        1 < (params.DomainValidationOptions.filter isDNSDomainValidationOption).length ∨
          ∃ d, params.DomainValidationOptions.filter isDNSDomainValidationOption = [d] ∧
            d.DomainName ≠ params.DomainName) ∧
      ∀ req, buildCertificateRequest params rawIdempotencyToken = Except.ok req →
        req.DomainValidationOptions =
            (if params.DomainValidationOptions.filter isEmailDomainValidationOption = []
             then none
             else some (params.DomainValidationOptions.filter isEmailDomainValidationOption)) ∧
          ∀ o ∈ req.DomainValidationOptions.getD [], isDNSDomainValidationOption o = false := by
  constructor
  · rw [← dnsOptionsInvalid_eq_true_iff]
    cases hinv : dnsOptionsInvalid params.DomainName
        (params.DomainValidationOptions.filter isDNSDomainValidationOption) <;>
      simp [buildCertificateRequest, hinv]
  · intro req hok
    cases hinv : dnsOptionsInvalid params.DomainName
        (params.DomainValidationOptions.filter isDNSDomainValidationOption) with
    | true => simp [buildCertificateRequest, hinv] at hok
    | false =>
      simp only [buildCertificateRequest, hinv, Bool.false_eq_true, if_false,
        Except.ok.injEq] at hok
      subst hok
      constructor
      · cases hemail : params.DomainValidationOptions.filter isEmailDomainValidationOption <;>
          simp [hemail]
      · intro o ho
        cases hemail : params.DomainValidationOptions.filter isEmailDomainValidationOption with
        | nil => simp [hemail] at ho
        | cons a rest =>
          rw [hemail] at ho
          simp only [List.length_eq_zero] at ho
          have hmem : o ∈ params.DomainValidationOptions.filter isEmailDomainValidationOption := by
            rw [hemail]
            simpa using ho
          have hfm := List.mem_filter.mp hmem
          have hv := hschema o hfm.1
          have he : o.ValidationDomain.isSome = true := hfm.2

          rw [he] at hv
          simp only [isDNSDomainValidationOption]
          cases hz : o.HostedZoneId.isSome with
          | false => rfl
          | true => rw [hz] at hv; simp at hv

/-- A property set with one email-style and one matching DNS-style
validation option, used to instantiate the C7 theorem. -/
def sampleCertificateParams : CertificateParams :=
  { DomainName := "example.com"
    CertificateTransparencyLoggingPreference := some "ENABLED"
    DomainValidationOptions :=
      [ { DomainName := "example.com", ValidationDomain := some "example.com",
          HostedZoneId := none },
        { DomainName := "example.com", ValidationDomain := none,
          HostedZoneId := some "Z1" } ]
    Tags := [{ Key := "env", Value := some "prod" }] }

theorem createCertificate_validation_witness :
    (∀ o ∈ sampleCertificateParams.DomainValidationOptions,
        o.ValidationDomain.isSome = !o.HostedZoneId.isSome) ∧
      (((∃ msg, buildCertificateRequest sampleCertificateParams "tok-1" = Except.error msg) ↔
          1 < (sampleCertificateParams.DomainValidationOptions.filter
            isDNSDomainValidationOption).length ∨
            ∃ d, sampleCertificateParams.DomainValidationOptions.filter
              isDNSDomainValidationOption = [d] ∧ d.DomainName ≠
                sampleCertificateParams.DomainName) ∧
        ∀ req, buildCertificateRequest sampleCertificateParams "tok-1" = Except.ok req →
          req.DomainValidationOptions =
              (if sampleCertificateParams.DomainValidationOptions.filter
                 isEmailDomainValidationOption = []
               then none
               else some (sampleCertificateParams.DomainValidationOptions.filter
                 isEmailDomainValidationOption)) ∧
            ∀ o ∈ req.DomainValidationOptions.getD [],
              isDNSDomainValidationOption o = false) :=
  ⟨by decide, createCertificate_validation sampleCertificateParams "tok-1" (by decide)⟩

/-- C8: when the certificate lookup succeeds, `deleteResource` issues
exactly one `deleteCertificate` call — in particular no Route53 record
mutation, leaving every DNS validation record in place — and returns the
unchanged physical resource id. -/
theorem deleteResource_deletes_certificate_only (certificates : List CertificateSummary)
    (physicalResourceId : String) (params : CertificateParams) (certificateArn : String)
    (h : findCertificateArn certificates physicalResourceId params.DomainName =
      some certificateArn) :
    deleteResource certificates physicalResourceId params =
        Except.ok ([ACMEffect.deleteCertificate certificateArn],
          { physicalResourceId := physicalResourceId,
            attributes := some { Arn := certificateArn, CertificateId := getCertificateId certificateArn } }) ∧
      ∀ trace resp,
        deleteResource certificates physicalResourceId params = Except.ok (trace, resp) →
          (∀ e ∈ trace, e.isRoute53 = false) ∧ resp.physicalResourceId = physicalResourceId := by
  have hdel : deleteResource certificates physicalResourceId params =
      Except.ok ([ACMEffect.deleteCertificate certificateArn],
        { physicalResourceId := physicalResourceId,
          attributes := some { Arn := certificateArn, CertificateId := getCertificateId certificateArn } }) := by
    simp [deleteResource, h]
  refine ⟨hdel, ?_⟩
  intro trace resp hok
  rw [hdel] at hok
  simp only [Except.ok.injEq, Prod.mk.injEq] at hok
  obtain ⟨htr, hresp⟩ := hok
  subst htr
  subst hresp
  exact ⟨by intro e he; simp at he; subst he; rfl, rfl⟩

theorem deleteResource_deletes_certificate_only_witness :
    findCertificateArn
        [{ CertificateArn := "arn:aws:acm:us-east-1:123456789012:certificate/abc"
           DomainName := "example.com" }] "S/L/R/abc" "example.com" =
        some "arn:aws:acm:us-east-1:123456789012:certificate/abc" ∧
      (deleteResource
          [{ CertificateArn := "arn:aws:acm:us-east-1:123456789012:certificate/abc"
             DomainName := "example.com" }] "S/L/R/abc"
          { DomainName := "example.com"
            CertificateTransparencyLoggingPreference := none
            DomainValidationOptions := []
            Tags := [] } =
          Except.ok ([ACMEffect.deleteCertificate
              "arn:aws:acm:us-east-1:123456789012:certificate/abc"],
            { physicalResourceId := "S/L/R/abc",
              attributes := some
                { Arn := "arn:aws:acm:us-east-1:123456789012:certificate/abc",
                  CertificateId :=
                    getCertificateId "arn:aws:acm:us-east-1:123456789012:certificate/abc" } }) ∧
        ∀ trace resp,
          deleteResource
              [{ CertificateArn := "arn:aws:acm:us-east-1:123456789012:certificate/abc"
                 DomainName := "example.com" }] "S/L/R/abc"
              { DomainName := "example.com"
                CertificateTransparencyLoggingPreference := none
                DomainValidationOptions := []
                Tags := [] } = Except.ok (trace, resp) →
            (∀ e ∈ trace, e.isRoute53 = false) ∧ resp.physicalResourceId = "S/L/R/abc") :=
  ⟨by decide,
    deleteResource_deletes_certificate_only _ "S/L/R/abc" _
      "arn:aws:acm:us-east-1:123456789012:certificate/abc" (by decide)⟩

theorem submittedIds_cons (e : QueueEvent) (es : List QueueEvent) :
    submittedIds (e :: es) = submittedIds [e] ++ submittedIds es := by
  cases e <;> simp [submittedIds]

/-- One queue step preserves the invariant and appends exactly the
submitted id (if any) to the settled-plus-pending sequence. -/
theorem queueStep_preserves (s s' : RequestQueueState) (e : QueueEvent)
    (hstep : queueStep s e = some s') (hg : goodState s) :
    goodState s' ∧
      settledIds s' ++ s'.queue = (settledIds s ++ s.queue) ++ submittedIds [e] := by
  cases e with
  | submit id =>
    simp only [queueStep, Option.some.injEq] at hstep
    subst hstep
    constructor
    · cases hq : s.queue with
      | nil =>
        simp only [goodState, settledIds] at hg ⊢
        simp [hq, hq ▸ hg]
      | cons a t =>
        simp only [goodState, settledIds] at hg ⊢
        simp [hq, hq ▸ hg]
    · simp [settledIds, submittedIds]
  | settle ok =>
    cases hq : s.queue with
    | nil => simp [queueStep, hq] at hstep
    | cons a t =>
      simp only [queueStep, hq, Option.some.injEq] at hstep
      subst hstep
      constructor
      · simp only [goodState, settledIds] at hg ⊢
        simp [hq] at hg
        simp [hg]
      · simp [settledIds, submittedIds, hq, List.append_assoc]

/-- Running any event sequence from an invariant-satisfying state lands
in an invariant-satisfying state and extends the settled-plus-pending
sequence by exactly the submitted ids, in order. -/
theorem runQueue_preserves (events : List QueueEvent) :
    ∀ s0 s, runQueue s0 events = some s → goodState s0 →
      goodState s ∧
        settledIds s ++ s.queue = (settledIds s0 ++ s0.queue) ++ submittedIds events := by
  induction events with
  | nil =>
    intro s0 s h hg
    simp only [runQueue, Option.some.injEq] at h
    subst h
    simpa [submittedIds] using hg
  | cons e es ih =>
    intro s0 s h hg
    rw [runQueue] at h
    cases hstep : queueStep s0 e with
    | none => rw [hstep] at h; cases h
    | some s1 =>
      rw [hstep] at h
      obtain ⟨hg1, heq1⟩ := queueStep_preserves s0 s1 e hstep hg
      obtain ⟨hg2, heq2⟩ := ih s1 s h hg1
      refine ⟨hg2, ?_⟩
      rw [heq2, heq1, submittedIds_cons e es]
      simp [List.append_assoc]

/-- C5: for every event sequence against one `CustomResource` instance,
(1) the operations that started executing are a prefix of the submitted
ids in submission order — strictly one at a time, since only the queue
head ever executes; (2) the queue is empty exactly when no operation is
in flight (started but unsettled); and (3) settling the in-flight
operation by failure produces exactly the same queue, started sequence
and settlement order as settling it by success — the rejection is
isolated to that operation's own promise and every queued successor
still runs. -/
theorem handleRequest_serializes (events : List QueueEvent) (s : RequestQueueState)
    (h : runQueue initialQueueState events = some s) :
    (∃ rest, submittedIds events = s.started ++ rest) ∧
      (s.queue = [] ↔ s.started.length = s.settled.length) ∧
      ∀ t f : RequestQueueState,
        queueStep s (QueueEvent.settle true) = some t →
        queueStep s (QueueEvent.settle false) = some f →
        t.queue = f.queue ∧ t.started = f.started ∧ settledIds t = settledIds f := by
  obtain ⟨hg, heq⟩ := runQueue_preserves events initialQueueState s h
    (by simp [goodState, initialQueueState, settledIds])
  have heq' : settledIds s ++ s.queue = submittedIds events := by
    simpa [initialQueueState, settledIds] using heq
  refine ⟨?_, ?_, ?_⟩
  · cases hq : s.queue with
    | nil =>
      refine ⟨[], ?_⟩
      rw [← heq', hg, hq]
      simp
    | cons a t =>
      refine ⟨t, ?_⟩
      rw [← heq', hg, hq]
      simp
  · cases hq : s.queue with
    | nil =>
      simp only [hq, true_iff]
      rw [hg, hq]
      simp [settledIds]
    | cons a t =>
      rw [hg, hq]
      simp [settledIds]
  · intro t f ht hf
    cases hq : s.queue with
    | nil => simp [queueStep, hq] at ht
    | cons a rest =>
      simp only [queueStep, hq, Option.some.injEq] at ht hf
      subst ht
      subst hf
      simp [settledIds]

theorem handleRequest_serializes_witness :
    runQueue initialQueueState
        [QueueEvent.submit 1, QueueEvent.submit 2,
          QueueEvent.settle false, QueueEvent.settle true] =
        some { queue := [], started := [1, 2], settled := [(1, false), (2, true)] } ∧
      ((∃ rest,
          submittedIds
              [QueueEvent.submit 1, QueueEvent.submit 2,
                QueueEvent.settle false, QueueEvent.settle true] =
            ({ queue := [], started := [1, 2],
                settled := [(1, false), (2, true)] } : RequestQueueState).started ++ rest) ∧
        (({ queue := [], started := [1, 2],
            settled := [(1, false), (2, true)] } : RequestQueueState).queue = [] ↔
          ({ queue := [], started := [1, 2],
              settled := [(1, false), (2, true)] } : RequestQueueState).started.length =
            ({ queue := [], started := [1, 2],
                settled := [(1, false), (2, true)] } : RequestQueueState).settled.length) ∧
        ∀ t f : RequestQueueState,
          queueStep { queue := [], started := [1, 2], settled := [(1, false), (2, true)] }
              (QueueEvent.settle true) = some t →
          queueStep { queue := [], started := [1, 2], settled := [(1, false), (2, true)] }
              (QueueEvent.settle false) = some f →
          t.queue = f.queue ∧ t.started = f.started ∧ settledIds t = settledIds f) :=
  ⟨by decide,
    handleRequest_serializes
      [QueueEvent.submit 1, QueueEvent.submit 2,
        QueueEvent.settle false, QueueEvent.settle true]
      { queue := [], started := [1, 2], settled := [(1, false), (2, true)] } (by decide)⟩

/-- C9: a serialized response body of 4096 bytes or more does not block
delivery: `send` still PUTs the body to the callback URL, and the only
additional action is one warning whose message contains the full body
(as a suffix). -/
theorem send_delivers_oversized_body {CA : Type} (request : CustomResourceRequest CA)
    (responseStatus : ResponseStatus) (responseReason : Option String)
    (physicalResourceId : Option String) (responseData : JSValue) (noEcho : Bool)
    (body : String)
    (hbody : body = responseBody request responseStatus responseReason physicalResourceId
      responseData noEcho)
    (h : 4096 ≤ body.length) :
    send request responseStatus responseReason physicalResourceId responseData noEcho =
        [SendEffect.warn ("Response body length of " ++ toString body.length ++
            " bytes exceeds CloudFormation limit of 4KiB: " ++ body),
          SendEffect.httpPut request.ResponseURL body] ∧
      ∃ pre, ("Response body length of " ++ toString body.length ++
          " bytes exceeds CloudFormation limit of 4KiB: " ++ body) = pre ++ body := by
  subst hbody
  exact ⟨by simp [send, if_pos h], ⟨_, rfl⟩⟩

/-- A small request used to instantiate the C9 theorem. -/
def sampleSendRequest : CustomResourceRequest Unit :=
  { ServiceToken := "st"
    RequestType := .create
    ResponseURL := "https://callback.example/u"
    StackId := "S"
    RequestId := "R"
    LogicalResourceId := "L"
    PhysicalResourceId := "P"
    ResourceType := "T"
    ContinuationAttributes := none }

/-- A failure reason long enough to push the serialized body past the
4096-byte limit. -/
def oversizedReason : String :=
  String.mk (List.replicate 4200 'a')

theorem jsonEscape_mk (l : List Char) :
    jsonEscape (String.mk l) = concatAll (l.map jsonEscapeChar) := rfl

theorem jsonEscape_length_replicate_a (n : Nat) :
    (jsonEscape (String.mk (List.replicate n 'a'))).length = n := by
  induction n with
  | zero => rfl
  | succ n ih =>
    rw [jsonEscape_mk] at ih ⊢
    simp only [List.replicate_succ, List.map_cons, concatAll, String.length_append]
    have hchar : (jsonEscapeChar 'a').length = 1 := rfl
    rw [hchar, ih]
    omega

theorem oversizedReason_ne_empty : ¬ oversizedReason = "" := by
  intro h
  have hlen : oversizedReason.length = 4200 := by
    show (String.mk (List.replicate 4200 'a')).length = 4200
    rw [String.length_mk, List.length_replicate]
  rw [h] at hlen
  simp at hlen

theorem responseBody_sample_length (r : String) (hr : ¬ r = "") :
    (responseBody sampleSendRequest ResponseStatus.failed (some r) (some "p")
        (JSValue.object []) false).length = (jsonEscape r).length + 135 := by
  have hp : ¬ ("p" : String) = "" := by decide
  have l1 : (jsonEscape "Status").length = 6 := by decide
  have l2 : (jsonEscape "FAILED").length = 6 := by decide
  have l3 : (jsonEscape "Reason").length = 6 := by decide
  have l4 : (jsonEscape "PhysicalResourceId").length = 18 := by decide
  have l5 : (jsonEscape "p").length = 1 := by decide
  have l6 : (jsonEscape "StackId").length = 7 := by decide
  have l7 : (jsonEscape "S").length = 1 := by decide
  have l8 : (jsonEscape "RequestId").length = 9 := by decide
  have l9 : (jsonEscape "R").length = 1 := by decide
  have l10 : (jsonEscape "LogicalResourceId").length = 17 := by decide
  have l11 : (jsonEscape "L").length = 1 := by decide
  have l12 : (jsonEscape "NoEcho").length = 6 := by decide
  have l13 : (jsonEscape "Data").length = 4 := by decide
  have q1 : ("\"" : String).length = 1 := by decide
  have q2 : ("\":" : String).length = 2 := by decide
  have q3 : ("," : String).length = 1 := by decide
  have q4 : ("\x7b" : String).length = 1 := by decide
  have q5 : ("\x7d" : String).length = 1 := by decide
  have q6 : ("false" : String).length = 5 := by decide
  have q7 : ("" : String).length = 0 := by decide
  simp only [responseBody, responseReasonValue, if_neg hr, if_neg hp, sampleSendRequest,
    statusString, jsonStringify, jsonStringifyFields, joinComma, cond_false,
    String.length_append, l1, l2, l3, l4, l5, l6, l7, l8, l9, l10, l11, l12, l13,
    q1, q2, q3, q4, q5, q6, q7]
  omega

theorem send_delivers_oversized_body_witness :
    4096 ≤ (responseBody sampleSendRequest ResponseStatus.failed (some oversizedReason)
        (some "p") (JSValue.object []) false).length ∧
      (send sampleSendRequest ResponseStatus.failed (some oversizedReason) (some "p")
          (JSValue.object []) false =
          [SendEffect.warn ("Response body length of " ++
              toString (responseBody sampleSendRequest ResponseStatus.failed
                (some oversizedReason) (some "p") (JSValue.object []) false).length ++
              " bytes exceeds CloudFormation limit of 4KiB: " ++
              responseBody sampleSendRequest ResponseStatus.failed (some oversizedReason)
                (some "p") (JSValue.object []) false),
            SendEffect.httpPut sampleSendRequest.ResponseURL
              (responseBody sampleSendRequest ResponseStatus.failed (some oversizedReason)
                (some "p") (JSValue.object []) false)] ∧
        ∃ pre, ("Response body length of " ++
            toString (responseBody sampleSendRequest ResponseStatus.failed
              (some oversizedReason) (some "p") (JSValue.object []) false).length ++
            " bytes exceeds CloudFormation limit of 4KiB: " ++
            responseBody sampleSendRequest ResponseStatus.failed (some oversizedReason)
              (some "p") (JSValue.object []) false) =
          pre ++ responseBody sampleSendRequest ResponseStatus.failed (some oversizedReason)
            (some "p") (JSValue.object []) false) :=
  have h : 4096 ≤ (responseBody sampleSendRequest ResponseStatus.failed (some oversizedReason)
      (some "p") (JSValue.object []) false).length := by
    rw [responseBody_sample_length oversizedReason oversizedReason_ne_empty]
    have hesc : (jsonEscape oversizedReason).length = 4200 :=
      jsonEscape_length_replicate_a 4200
    omega
  ⟨h, send_delivers_oversized_body sampleSendRequest ResponseStatus.failed
    (some oversizedReason) (some "p") (JSValue.object []) false _ rfl h⟩

end CCR
